import Mathlib

/-!
Shallow embedding of the Engine Evaluation Coordinator of the
`reinson/chess-endgames` repository:

* the `useStockfish` hook (worker message handler, `evaluateFen` with its
  readiness / busy poll loops and its timeout timer), and
* the `handleEvaluateKingPositions` sweep in the application component
  (FEN piece-placement parsing, candidate-square enumeration and skipping,
  perspective adjustment, per-square error isolation, cancellation).

JavaScript strings are modelled as `List Char`.  Engine evaluation is an
external call and is modelled as an oracle from the candidate square to an
outcome (the synthesized FEN is a function of the fixed piece list, the fixed
side to move, and the candidate square, so keying the oracle by the square is
faithful).
-/

namespace ChessEndgames

/-- A JavaScript string, modelled as its character sequence. -/
abbrev JStr := List Char

/-- `EvaluationResult` from `useStockfish.ts`: all fields optional
(`score?: number; mate?: number; depth?: number; bestMove?: string`). -/
structure EvaluationResult where
  score : Option Int := none
  mate : Option Int := none
  depth : Option Nat := none
  bestMove : Option JStr := none
deriving Repr, DecidableEq

/-- Value of a run of decimal digits, as JavaScript `parseInt` computes it on
a string of digits. -/
def parseDigits (ds : List Char) : Nat :=
  ds.foldl (fun n c => 10 * n + (c.toNat - 48)) 0

/-- Match of the regular expression `-?\d+` anchored at the start of `s`:
an optional minus sign followed by a maximal nonempty run of digits
(`none` when no digit is available at this position). -/
def signedIntHere (s : List Char) : Option Int :=
  match s with
  | '-' :: rest =>
      let ds := rest.takeWhile Char.isDigit
      if ds.isEmpty then none else some (-(parseDigits ds : Int))
  | _ =>
      let ds := s.takeWhile Char.isDigit
      if ds.isEmpty then none else some (parseDigits ds)

/-- Match of the regular expression `\d+` anchored at the start of `s`. -/
def natHere (s : List Char) : Option Nat :=
  let ds := s.takeWhile Char.isDigit
  if ds.isEmpty then none else some (parseDigits ds)

/-- JavaScript `s.includes(pat)`: does `pat` occur as a contiguous substring
of `s`?  Checked at every start position from the left. -/
def includesSub (pat : JStr) : JStr → Bool
  | [] => pat.isEmpty
  | c :: rest => pat.isPrefixOf (c :: rest) || includesSub pat rest

/-- First match of the regular expression `<pat>(-?\d+)` anywhere in `s`
(the semantics of JavaScript `s.match(/<pat>(-?\d+)/)`): the engine tries each
start position from the left and the whole pattern must match there. -/
def matchIntAfter (pat : JStr) : JStr → Option Int
  | [] => none
  | c :: rest =>
      if pat.isPrefixOf (c :: rest) then
        match signedIntHere ((c :: rest).drop pat.length) with
        | some n => some n
        | none => matchIntAfter pat rest
      else matchIntAfter pat rest

/-- First match of the regular expression `<pat>(\d+)` anywhere in `s`. -/
def matchNatAfter (pat : JStr) : JStr → Option Nat
  | [] => none
  | c :: rest =>
      if pat.isPrefixOf (c :: rest) then
        match natHere ((c :: rest).drop pat.length) with
        | some n => some n
        | none => matchNatAfter pat rest
      else matchNatAfter pat rest

/-- The `message.startsWith('info')` branch of the worker message handler
(`useStockfish.ts` lines 58–68): extract `depth`, then update the accumulator
`currentEvalRef.current` on `score cp <int>` or `score mate <int>`.
`{...currentEvalRef.current, ...}` spreads `null` to `{}`, hence `acc.getD {}`. -/
def parseInfoLine (acc : Option EvaluationResult) (message : JStr) :
    Option EvaluationResult :=
  let currentDepth := matchNatAfter "depth ".toList message
  if includesSub "score cp".toList message then
    match matchIntAfter "score cp ".toList message with
    | some n =>
        some { acc.getD {} with score := some n, mate := none, depth := currentDepth }
    | none => acc
  else if includesSub "score mate".toList message then
    match matchIntAfter "score mate ".toList message with
    | some n =>
        some { acc.getD {} with mate := some n, score := none, depth := currentDepth }
    | none => acc
  else acc

/-- JavaScript `s.split(' ')` (auxiliary: `cur` is the current token reversed). -/
def splitOnSpaceAux : JStr → JStr → List JStr
  | [], cur => [cur.reverse]
  | c :: rest, cur =>
      if c = ' ' then cur.reverse :: splitOnSpaceAux rest []
      else splitOnSpaceAux rest (c :: cur)

/-- JavaScript `s.split(' ')`. -/
def splitOnSpace (s : JStr) : List JStr := splitOnSpaceAux s []

/-- The errors thrown or passed to `reject` inside `useStockfish.ts`. -/
inductive EngineError where
  /-- "Engine did not become ready in time." (readiness poll ceiling) -/
  | readinessTimeout
  /-- "Timeout waiting for engine to become free." (busy poll ceiling) -/
  | busyTimeout
  /-- "Evaluation timed out after `<duration>`ms" (per-request timer) -/
  | evaluationTimeout
  /-- a `worker.onerror` event forwarded to the pending `reject` -/
  | workerError
deriving Repr, DecidableEq

/-- Externally observable effects of one handler run. -/
inductive Action where
  /-- `worker.postMessage(cmd)` issued through `sendCommand` -/
  | post (cmd : JStr)
  /-- the pending promise's `resolve` called with a result -/
  | resolve (r : EvaluationResult)
  /-- the pending promise's `reject` called with an error -/
  | reject (e : EngineError)
  /-- `console.warn`: a `bestmove` arrived with no promise pending -/
  | warnNoPending
deriving Repr, DecidableEq

/-- The mutable state owned by the `useStockfish` hook: the `isReady` React
state, the `isEngineBusy` / `currentEvalRef` / promise-handle refs, and
whether a `setTimeout` timer is armed (recording its duration in ms). -/
structure SessionState where
  isReady : Bool := false
  isEngineBusy : Bool := false
  currentEval : Option EvaluationResult := none
  hasPromiseResolve : Bool := false
  hasPromiseReject : Bool := false
  timer : Option Nat := none
deriving Repr, DecidableEq

/-- State right after worker construction (`useStockfish.ts` lines 43–49). -/
def initialSession : SessionState := {}

/-- `sendCommand` (`useStockfish.ts` lines 24–34): posts to the worker when
ready; during initialization only `uci` and `isready` pass; anything else is
dropped with a `console.error`. -/
def sendCommand (s : SessionState) (command : JStr) : List Action :=
  if s.isReady then [.post command]
  else if command = "uci".toList || command = "isready".toList then [.post command]
  else []

/-- `const bestMove = parts[1] && parts[1] !== '(none)' ? parts[1] : undefined`:
the second space-separated token of the completion line, absent when the
token is missing, empty (falsy) or the `(none)` sentinel. -/
def bestMoveToken (message : JStr) : Option JStr :=
  match (splitOnSpace message)[1]? with
  | some t => if t ≠ [] ∧ t ≠ "(none)".toList then some t else none
  | none => none

/-- The result resolved on a completion line: the accumulated partial result
with the best move attached, or `{ bestMove }` alone when no info line had
arrived (`useStockfish.ts` lines 74–78). -/
def completionResult (acc : Option EvaluationResult) (bm : Option JStr) :
    EvaluationResult :=
  match acc with
  | some r => { r with bestMove := bm }
  | none => { bestMove := bm }

/-- The `worker.onmessage` handler for a string message
(`useStockfish.ts` lines 54–104): info lines feed the accumulator, `bestmove`
completes the pending request, `uciok` triggers `isready`, `readyok` flips
the ready flag. Any other line is ignored. -/
def onMessage (s : SessionState) (message : JStr) : SessionState × List Action :=
  if ("info".toList).isPrefixOf message then
    ({ s with currentEval := parseInfoLine s.currentEval message }, [])
  else if ("bestmove".toList).isPrefixOf message then
    let result : EvaluationResult :=
      completionResult s.currentEval (bestMoveToken message)
    let acts := if s.hasPromiseResolve then [Action.resolve result] else [Action.warnNoPending]
    ({ s with timer := none, isEngineBusy := false, hasPromiseResolve := false,
              hasPromiseReject := false, currentEval := none }, acts)
  else if message = "uciok".toList then (s, sendCommand s "isready".toList)
  else if message = "readyok".toList then
    ({ s with isReady := true, isEngineBusy := false }, [])
  else (s, [])

/-- Timer duration armed by `evaluateFen` (`useStockfish.ts` line 167):
the requested `moveTime` budget plus a fixed 5000 ms safety margin. -/
def evalTimeoutMs (moveTime : Nat) : Nat := moveTime + 5000

/-- Timeout of `evaluatePosition` in the standalone stockfish service module
(single evaluate calls): `movetime + 100`, "slightly longer than the
movetime". -/
def evaluatePositionTimeoutMs (movetime : Nat) : Nat := movetime + 100

/-- Body of the promise executor in `evaluateFen`
(`useStockfish.ts` lines 160–185): mark busy, reset the accumulator, store
the completion handles, arm the timer, send `position fen` and `go movetime`. -/
def startEvaluation (s : SessionState) (fen : JStr) (moveTime : Nat) :
    SessionState × List Action :=
  let s1 : SessionState :=
    { s with isEngineBusy := true, currentEval := none,
             hasPromiseResolve := true, hasPromiseReject := true,
             timer := some (evalTimeoutMs moveTime) }
  (s1, sendCommand s1 ("position fen ".toList ++ fen) ++
       sendCommand s1 ("go movetime ".toList ++ (Nat.repr moveTime).toList))

/-- The armed `setTimeout` callback (`useStockfish.ts` lines 169–179):
reject the pending request (when one is pending), clear the busy flag, the
promise handles and the accumulator, and send a best-effort `stop`. -/
def onTimeout (s : SessionState) : SessionState × List Action :=
  let rejectActs : List Action :=
    if s.hasPromiseReject then [.reject .evaluationTimeout] else []
  let s1 : SessionState :=
    { s with timer := none, isEngineBusy := false, hasPromiseResolve := false,
             hasPromiseReject := false, currentEval := none }
  (s1, rejectActs ++ sendCommand s1 "stop".toList)

/-- The `worker.onerror` handler (`useStockfish.ts` lines 111–121): reject the
pending request, clear the timer, drop readiness and the busy flag and the
promise handles. (The accumulator ref is not cleared on this path.) -/
def onWorkerError (s : SessionState) : SessionState × List Action :=
  let rejectActs : List Action :=
    if s.hasPromiseReject then [.reject .workerError] else []
  ({ s with timer := none, isReady := false, isEngineBusy := false,
            hasPromiseResolve := false, hasPromiseReject := false }, rejectActs)

/-- The events that mutate the session's state. -/
inductive SessionEvent where
  | line (message : JStr)
  | startEval (fen : JStr) (moveTime : Nat)
  | timerFire
  | workerErr

/-- Dispatch of one event to its handler. -/
def sessionStep (s : SessionState) : SessionEvent → SessionState × List Action
  | .line m => onMessage s m
  | .startEval fen mt => startEvaluation s fen mt
  | .timerFire => onTimeout s
  | .workerErr => onWorkerError s

/-- Run a sequence of events, accumulating all emitted actions. -/
def runSession (s : SessionState) (events : List SessionEvent) :
    SessionState × List Action :=
  events.foldl (fun p e => ((sessionStep p.1 e).1, p.2 ++ (sessionStep p.1 e).2)) (s, [])

/-- The readiness wait loop of `evaluateFen` (`useStockfish.ts` lines
140–149).  `ready` is the `isReady` value captured by the call's closure: a
React state value, constant for the whole call, so the loop either exits at
once or runs to its ceiling (`waitLoops++ > 50`, one 100 ms sleep per
iteration, ≈ 5 s).  `fuel` bounds the recursion; `readinessPoll` supplies
enough fuel for the ceiling to fire first. -/
def readinessPollAux (ready : Bool) : Nat → Nat → Except EngineError Nat
  | 0, _ => .error .readinessTimeout
  | fuel + 1, waitLoops =>
      if !ready then
        if waitLoops > 50 then .error .readinessTimeout
        else readinessPollAux ready fuel (waitLoops + 1)
      else .ok waitLoops

/-- The readiness wait of one `evaluateFen` call. -/
def readinessPoll (ready : Bool) : Except EngineError Nat :=
  readinessPollAux ready 52 0

/-- The busy wait loop of `evaluateFen` (`useStockfish.ts` lines 150–158).
`busy` gives the value of the live ref `isEngineBusy.current` at the i-th
poll; the ceiling is `waitLoops++ > 200` (one 100 ms sleep per iteration,
≈ 20 s). -/
def busyPollAux (busy : Nat → Bool) : Nat → Nat → Except EngineError Nat
  | 0, _ => .error .busyTimeout
  | fuel + 1, waitLoops =>
      if busy waitLoops then
        if waitLoops > 200 then .error .busyTimeout
        else busyPollAux busy fuel (waitLoops + 1)
      else .ok waitLoops

/-- The busy wait of one `evaluateFen` call. -/
def busyPoll (busy : Nat → Bool) : Except EngineError Nat :=
  busyPollAux busy 202 0

/-- The two suspension phases `evaluateFen` goes through before its promise
is created: readiness wait, then busy wait; either may throw its timeout.
Returns the index of the poll that found the engine free. -/
def evaluateFenWaitPhase (ready : Bool) (busy : Nat → Bool) :
    Except EngineError Nat := do
  let _ ← readinessPoll ready
  busyPoll busy

/-- Piece color, `'w' | 'b'` in the source. -/
inductive PColor where
  | w
  | b
deriving Repr, DecidableEq

/-- A board square.  The source identifies squares by strings
`${String.fromCharCode(97 + file)}${rank + 1}`; we identify them by the pair
`(file, rank)` of 0-based indices (so `a1 = (0, 0)`, `h8 = (7, 7)`).
Differences of `charCodeAt(0)` values and of rank digits in the source equal
the differences of these indices, so the Chebyshev test is unchanged. -/
abbrev SquareId := Int × Int

/-- One entry of the `piecesToPlace` array built while parsing the FEN
piece-placement field. -/
structure Placement where
  square : SquareId
  color : PColor
  ptype : Char
deriving Repr, DecidableEq

/-- The loop variables of the FEN piece-placement parse
(`App.tsx`, `handleEvaluateKingPositions`): current file and rank cursors,
the pieces pushed so far, and the last king seen. -/
structure ParseState where
  file : Int := 0
  rank : Int := 7
  pieces : List Placement := []
  existingKingSquare : Option SquareId := none
  existingKingColor : Option PColor := none
deriving Repr, DecidableEq

/-- One character of the FEN piece-placement field: `/` drops to the next
rank, a digit skips files, any other character is recorded as a piece
(uppercase ⇒ white), updating the last-seen king when its lowercased type is
`k`. -/
def parseStep (st : ParseState) (char : Char) : ParseState :=
  if char = '/' then { st with rank := st.rank - 1, file := 0 }
  else if char.isDigit then { st with file := st.file + (char.toNat - 48 : Int) }
  else
    let square : SquareId := (st.file, st.rank)
    let color : PColor := if char.toUpper = char then .w else .b
    let ptype : Char := char.toLower
    { st with
      pieces := st.pieces ++ [⟨square, color, ptype⟩],
      existingKingSquare := if ptype = 'k' then some square else st.existingKingSquare,
      existingKingColor := if ptype = 'k' then some color else st.existingKingColor,
      file := st.file + 1 }

/-- Parse of the FEN piece-placement field (`App.tsx`, the `for (const char
of ...)` loop of `handleEvaluateKingPositions`). -/
def parseFenPlacement (placement : JStr) : ParseState :=
  placement.foldl parseStep {}

/-- The 64 squares in the loop's fixed order (`allSquares` in the source):
rank 8 down to rank 1, file a to file h within each rank. -/
def allSquares : List SquareId :=
  (List.range 8).flatMap fun r => (List.range 8).map fun f => ((f : Int), (7 - (r : Int)))

/-- `game.get(square)`: the board holds exactly the parsed pieces, so a
square is occupied iff some parsed placement sits on it. -/
def occupied (pieces : List Placement) (sq : SquareId) : Bool :=
  pieces.any fun p => p.square = sq

/-- The adjacency test of the sweep: Chebyshev distance ≤ 1 (`Math.abs`
of the file difference and of the rank difference both ≤ 1). -/
def chebyshevAdjacent (a b : SquareId) : Bool :=
  (a.1 - b.1).natAbs ≤ 1 && (a.2 - b.2).natAbs ≤ 1

/-- The two `continue` guards of the sweep loop: the square is occupied or is
the existing king's square, or it is adjacent to the existing king. -/
def skipSquare (pieces : List Placement) (existingKingSquare : SquareId)
    (square : SquareId) : Bool :=
  (occupied pieces square || square = existingKingSquare) ||
    chebyshevAdjacent square existingKingSquare

/-- Outcome of one `await evaluateFen(tempFen, 1000)` call: the promise
resolves with an `EvaluationResult | null`, or rejects. -/
inductive EvalOutcome where
  | ok (evaluation : Option EvaluationResult)
  | err
deriving Repr, DecidableEq

/-- The perspective adjustment of the sweep (`App.tsx`,
`if (turnOfEvaluatedFen === 'b' && evaluation) { ... }`): when the evaluated
position had Black to move and a result arrived, negate its score and mate
when present; otherwise use the raw result. -/
def adjustPerspective (turnOfEvaluatedFen : JStr)
    (evaluation : Option EvaluationResult) : Option EvaluationResult :=
  if turnOfEvaluatedFen = "b".toList then
    match evaluation with
    | some e =>
        some { e with score := e.score.map (fun x => -x),
                      mate := e.mate.map (fun x => -x) }
    | none => none
  else evaluation

/-- The `for (const square of allSquares)` loop of
`handleEvaluateKingPositions`.  Per square: cancellation pre-check (`break`),
skip guards (`continue`), then the awaited engine call; on resolution a
cancellation re-check (`break`, discarding the in-flight result) and the
store of the perspective-adjusted result; on rejection the `catch` stores
`null` (with no flag re-check on that path).

The engine call is the loop body's only suspension point, and the
cancellation ref is written only by other event-loop turns, so the value the
flag reads can change only across that await: `cancelFlag` gives the flag's
value as a function of the number of completed engine calls.  The oracle is
keyed by the candidate square: `tempFen` is a function of the fixed parsed
pieces, the fixed turn token, and the square.

Returns the stored entries in order together with the number of engine calls
made. -/
def sweepLoop (pieces : List Placement) (existingKingSquare : SquareId)
    (turn : JStr) (oracle : SquareId → EvalOutcome) (cancelFlag : Nat → Bool) :
    List SquareId → Nat → List (SquareId × Option EvaluationResult) →
    List (SquareId × Option EvaluationResult) × Nat
  | [], calls, acc => (acc, calls)
  | square :: rest, calls, acc =>
      if cancelFlag calls then (acc, calls)
      else if skipSquare pieces existingKingSquare square then
        sweepLoop pieces existingKingSquare turn oracle cancelFlag rest calls acc
      else
        match oracle square with
        | .ok evaluation =>
            if cancelFlag (calls + 1) then (acc, calls + 1)
            else
              sweepLoop pieces existingKingSquare turn oracle cancelFlag rest
                (calls + 1) (acc ++ [(square, adjustPerspective turn evaluation)])
        | .err =>
            sweepLoop pieces existingKingSquare turn oracle cancelFlag rest
              (calls + 1) (acc ++ [(square, none)])

/-- The value one sweep iteration stores for an evaluated square: the
perspective-adjusted result when the engine call resolves, `null` when it
rejects. -/
def storedValue (turn : JStr) (oracle : SquareId → EvalOutcome)
    (sq : SquareId) : Option EvaluationResult :=
  match oracle sq with
  | .ok evaluation => adjustPerspective turn evaluation
  | .err => none

/-- The side-to-move token used for `tempFen`
(`const turn = currentFen.split(' ')[1] as 'w' | 'b' || 'w'`): the second
space-separated field, with `'w'` substituted when it is missing or empty.
`createFenFromPieces` writes this token back as field 1 of `tempFen`, so
`tempFen.split(' ')[1]` — the value the perspective adjustment inspects — is
this token again. -/
def turnToken (currentFen : JStr) : JStr :=
  match (splitOnSpace currentFen)[1]? with
  | some t => if t = [] then "w".toList else t
  | none => "w".toList

/-- The FEN's piece-placement field, `currentFen.split(' ')[0]`
(`split` always returns at least one field). -/
def placementField (currentFen : JStr) : JStr :=
  ((splitOnSpace currentFen)[0]?).getD []

/-- Observable outcome of one `handleEvaluateKingPositions` run: the
per-square entries stored into the output mapping (in storage order), the
number of engine calls made, and whether the run took the
"could not find existing king" early return. -/
structure SweepOutcome where
  entries : List (SquareId × Option EvaluationResult)
  evalCalls : Nat
  kingMissingError : Bool
deriving Repr, DecidableEq

/-- `handleEvaluateKingPositions` (`App.tsx`): parse the placement field of
the current FEN, return early when no king was seen during the parse, and
otherwise run the sweep over the 64 squares. -/
def handleEvaluateKingPositions (currentFen : JStr)
    (oracle : SquareId → EvalOutcome) (cancelFlag : Nat → Bool) : SweepOutcome :=
  let turn := turnToken currentFen
  let ps := parseFenPlacement (placementField currentFen)
  match ps.existingKingSquare, ps.existingKingColor with
  | some ksq, some _ =>
      let r := sweepLoop ps.pieces ksq turn oracle cancelFlag allSquares 0 []
      { entries := r.1, evalCalls := r.2, kingMissingError := false }
  | _, _ => { entries := [], evalCalls := 0, kingMissingError := true }

/-- Number of kings (of either color) among the parsed placements of a FEN's
piece-placement field. -/
def kingCount (currentFen : JStr) : Nat :=
  ((parseFenPlacement (placementField currentFen)).pieces.filter
    fun p => p.ptype = 'k').length

/-- The candidate squares the sweep actually evaluates, in loop order: the 64
squares minus the skipped ones (empty when the early return fires). -/
def evaluableSquares (currentFen : JStr) : List SquareId :=
  let ps := parseFenPlacement (placementField currentFen)
  match ps.existingKingSquare with
  | some ksq => allSquares.filter fun sq => !skipSquare ps.pieces ksq sq
  | none => []

/-! ### Score/mate mutual exclusivity (claim C1) -/

/-- At most one of `score` and `mate` is present. -/
def scoreMateExclusive (r : EvaluationResult) : Prop :=
  r.score = none ∨ r.mate = none

/-- The invariant on the accumulator ref (`null` satisfies it trivially). -/
def accExclusive : Option EvaluationResult → Prop
  | none => True
  | some r => scoreMateExclusive r

lemma parseInfoLine_exclusive (acc : Option EvaluationResult) (m : JStr)
    (h : accExclusive acc) : accExclusive (parseInfoLine acc m) := by
  unfold parseInfoLine
  dsimp only
  split
  · cases hm : matchIntAfter "score cp ".toList m with
    | some n => simp [accExclusive, scoreMateExclusive]
    | none => exact h
  · split
    · cases hm : matchIntAfter "score mate ".toList m with
      | some n => simp [accExclusive, scoreMateExclusive]
      | none => exact h
    · exact h

lemma sendCommand_no_resolve (s : SessionState) (c : JStr) (r : EvaluationResult) :
    Action.resolve r ∉ sendCommand s c := by
  unfold sendCommand
  split
  · simp
  · split <;> simp

lemma onMessage_exclusive (s : SessionState) (m : JStr)
    (h : accExclusive s.currentEval) :
    accExclusive (onMessage s m).1.currentEval ∧
      ∀ r, Action.resolve r ∈ (onMessage s m).2 → scoreMateExclusive r := by
  unfold onMessage
  split
  · exact ⟨parseInfoLine_exclusive _ _ h, by simp⟩
  · split
    · refine ⟨trivial, fun r hr => ?_⟩
      dsimp only at hr
      by_cases hres : s.hasPromiseResolve = true
      · rw [if_pos hres] at hr
        simp only [List.mem_singleton, Action.resolve.injEq] at hr
        subst hr
        rcases hc : s.currentEval with _ | r0
        · exact Or.inl rfl
        · rw [hc] at h
          exact h
      · rw [if_neg hres] at hr
        simp at hr
    · split
      · exact ⟨h, fun r hr => absurd hr (sendCommand_no_resolve s _ r)⟩
      · split
        · exact ⟨h, by simp⟩
        · exact ⟨h, by simp⟩

lemma sessionStep_exclusive (s : SessionState) (e : SessionEvent)
    (h : accExclusive s.currentEval) :
    accExclusive (sessionStep s e).1.currentEval ∧
      ∀ r, Action.resolve r ∈ (sessionStep s e).2 → scoreMateExclusive r := by
  cases e with
  | line m => exact onMessage_exclusive s m h
  | startEval fen mt =>
      refine ⟨trivial, fun r hr => ?_⟩
      unfold startEvaluation at hr
      rcases List.mem_append.1 hr with h1 | h1
      · exact absurd h1 (sendCommand_no_resolve _ _ r)
      · exact absurd h1 (sendCommand_no_resolve _ _ r)
  | timerFire =>
      refine ⟨trivial, fun r hr => ?_⟩
      unfold onTimeout at hr
      rcases List.mem_append.1 hr with h1 | h1
      · split at h1 <;> simp at h1
      · exact absurd h1 (sendCommand_no_resolve _ _ r)
  | workerErr =>
      refine ⟨h, fun r hr => ?_⟩
      have hact : (sessionStep s SessionEvent.workerErr).2 =
          if s.hasPromiseReject = true then [Action.reject .workerError] else [] := rfl
      rw [hact] at hr
      split at hr <;> simp at hr

lemma runSession_acc (events : List SessionEvent) :
    ∀ (s : SessionState) (as : List Action),
      events.foldl
          (fun p e => ((sessionStep p.1 e).1, p.2 ++ (sessionStep p.1 e).2)) (s, as) =
        ((runSession s events).1, as ++ (runSession s events).2) := by
  induction events with
  | nil => intro s as; simp [runSession]
  | cons e evs ih =>
      intro s as
      show evs.foldl _ ((sessionStep s e).1, as ++ (sessionStep s e).2) = _
      rw [ih]
      have h2 : runSession s (e :: evs) =
          ((runSession (sessionStep s e).1 evs).1,
            ((sessionStep s e).2 ++ (runSession (sessionStep s e).1 evs).2)) := by
        show evs.foldl _ ((sessionStep s e).1, [] ++ (sessionStep s e).2) = _
        rw [ih]
        simp
      rw [h2]
      simp [List.append_assoc]

lemma runSession_exclusive (events : List SessionEvent) :
    ∀ (s : SessionState), accExclusive s.currentEval →
      accExclusive ((runSession s events).1.currentEval) ∧
        ∀ r, Action.resolve r ∈ (runSession s events).2 → scoreMateExclusive r := by
  induction events with
  | nil => intro s h; exact ⟨h, by simp [runSession]⟩
  | cons e evs ih =>
      intro s h
      have hstep := sessionStep_exclusive s e h
      have hrec := ih (sessionStep s e).1 hstep.1
      have hrun : runSession s (e :: evs) =
          ((runSession (sessionStep s e).1 evs).1,
            ((sessionStep s e).2 ++ (runSession (sessionStep s e).1 evs).2)) := by
        show evs.foldl _ ((sessionStep s e).1, [] ++ (sessionStep s e).2) = _
        rw [runSession_acc]
        simp
      rw [hrun]
      refine ⟨hrec.1, fun r hr => ?_⟩
      rcases List.mem_append.1 hr with h1 | h1
      · exact hstep.2 r h1
      · exact hrec.2 r h1

lemma includes_of_matchInt (pat patSub : JStr) (hsub : patSub <+: pat) :
    ∀ (s : JStr) (n : Int), matchIntAfter pat s = some n →
      includesSub patSub s = true := by
  intro s
  induction s with
  | nil => intro n h; simp [matchIntAfter] at h
  | cons c rest ih =>
      intro n h
      unfold matchIntAfter at h
      unfold includesSub
      by_cases hp : pat.isPrefixOf (c :: rest) = true
      · rw [if_pos hp] at h
        have hps : patSub.isPrefixOf (c :: rest) = true := by
          rw [List.isPrefixOf_iff_prefix]
          exact hsub.trans (List.isPrefixOf_iff_prefix.1 hp)
        simp [hps]
      · rw [if_neg hp] at h
        rw [Bool.or_eq_true]
        exact Or.inr (ih n h)

/-- C1: every accumulator state the parser reaches from the initial session,
and every result it ever hands to a pending promise's `resolve`, has at most
one of `score` and `mate` present; a line carrying `score cp <int>` sets the
score and clears the mate, and a line carrying `score mate <int>` (and no
`score cp` occurrence) sets the mate and clears the score. -/
theorem parser_score_mate_mutually_exclusive :
    (∀ events : List SessionEvent,
        accExclusive ((runSession initialSession events).1.currentEval) ∧
          ∀ r, Action.resolve r ∈ (runSession initialSession events).2 →
            scoreMateExclusive r) ∧
    (∀ (acc : Option EvaluationResult) (m : JStr) (n : Int),
        matchIntAfter "score cp ".toList m = some n →
          ∃ r, parseInfoLine acc m = some r ∧ r.score = some n ∧ r.mate = none) ∧
    (∀ (acc : Option EvaluationResult) (m : JStr) (n : Int),
        includesSub "score cp".toList m = false →
        matchIntAfter "score mate ".toList m = some n →
          ∃ r, parseInfoLine acc m = some r ∧ r.mate = some n ∧ r.score = none) := by
  refine ⟨fun events => runSession_exclusive events initialSession trivial, ?_, ?_⟩
  · intro acc m n h
    have hinc : includesSub "score cp".toList m = true :=
      includes_of_matchInt "score cp ".toList "score cp".toList
        ⟨[' '], rfl⟩ m n h
    have heq : parseInfoLine acc m =
        some { (acc.getD {}) with
                 score := some n, mate := none,
                 depth := matchNatAfter "depth ".toList m } := by
      unfold parseInfoLine
      dsimp only
      rw [if_pos hinc, h]
    exact ⟨_, heq, rfl, rfl⟩
  · intro acc m n hcp h
    have hinc : includesSub "score mate".toList m = true :=
      includes_of_matchInt "score mate ".toList "score mate".toList
        ⟨[' '], rfl⟩ m n h
    have heq : parseInfoLine acc m =
        some { (acc.getD {}) with
                 mate := some n, score := none,
                 depth := matchNatAfter "depth ".toList m } := by
      unfold parseInfoLine
      dsimp only
      rw [if_neg (by rw [hcp]; simp), if_pos hinc, h]
    exact ⟨_, heq, rfl, rfl⟩

/-- Witness for C1 at concrete lines: a `score cp` line and a `score mate`
line, each matched through the theorem with its hypotheses discharged by
evaluation. -/
theorem parser_score_mate_mutually_exclusive_witness :
    (∃ r, parseInfoLine none "info depth 12 score cp -35".toList = some r ∧
        r.score = some (-35) ∧ r.mate = none) ∧
    (∃ r, parseInfoLine (some { score := some 7 })
            "info depth 3 score mate 2".toList = some r ∧
        r.mate = some 2 ∧ r.score = none) :=
  ⟨parser_score_mate_mutually_exclusive.2.1 none
      "info depth 12 score cp -35".toList (-35) (by rfl),
    parser_score_mate_mutually_exclusive.2.2 (some { score := some 7 })
      "info depth 3 score mate 2".toList 2 (by rfl) (by rfl)⟩

/-! ### Completion handling (claim C5) -/

lemma bestmove_not_info (m : JStr) (h : ("bestmove".toList).isPrefixOf m = true) :
    ("info".toList).isPrefixOf m = false := by
  cases m with
  | nil => simp [List.isPrefixOf] at h
  | cons c rest =>
      have h1 : ('b' == c && ("estmove".toList).isPrefixOf rest) = true := h
      have h2 : ('b' == c) = true ∧ ("estmove".toList).isPrefixOf rest = true := by
        simpa [Bool.and_eq_true] using h1
      have hc : c = 'b' := (beq_iff_eq.mp h2.1).symm
      subst hc
      rfl

lemma onMessage_bestmove (s : SessionState) (m : JStr)
    (hbm : ("bestmove".toList).isPrefixOf m = true)
    (hpend : s.hasPromiseResolve = true) :
    onMessage s m =
      ({ s with timer := none, isEngineBusy := false, hasPromiseResolve := false,
                hasPromiseReject := false, currentEval := none },
        [Action.resolve (completionResult s.currentEval (bestMoveToken m))]) := by
  unfold onMessage
  rw [if_neg (by rw [bestmove_not_info m hbm]; simp), if_pos hbm]
  dsimp only
  rw [if_pos hpend]

/-- C5: on a completion line received while a request is pending, the session
resolves the pending promise with the accumulated partial result carrying the
best move (a result holding only the best move when no score/mate line
arrived), where the best move is the line's second token — absent when that
token is the `(none)` sentinel or missing — and clears the pending slot, the
accumulator and the busy flag. -/
theorem bestmove_completes_pending_request (s : SessionState) (m : JStr)
    (hbm : ("bestmove".toList).isPrefixOf m = true)
    (hpend : s.hasPromiseResolve = true) :
    (onMessage s m).1.isEngineBusy = false ∧
    (onMessage s m).1.hasPromiseResolve = false ∧
    (onMessage s m).1.hasPromiseReject = false ∧
    (onMessage s m).1.currentEval = none ∧
    ∃ r, (onMessage s m).2 = [Action.resolve r] ∧
      r.score = (s.currentEval.getD {}).score ∧
      r.mate = (s.currentEval.getD {}).mate ∧
      r.depth = (s.currentEval.getD {}).depth ∧
      ((splitOnSpace m)[1]? = some "(none)".toList → r.bestMove = none) ∧
      ((splitOnSpace m)[1]? = none → r.bestMove = none) ∧
      (∀ tok, (splitOnSpace m)[1]? = some tok → tok ≠ [] →
        tok ≠ "(none)".toList → r.bestMove = some tok) := by
  rw [onMessage_bestmove s m hbm hpend]
  refine ⟨rfl, rfl, rfl, rfl, completionResult s.currentEval (bestMoveToken m),
    rfl, ?_, ?_, ?_, ?_, ?_, ?_⟩
  · cases s.currentEval <;> rfl
  · cases s.currentEval <;> rfl
  · cases s.currentEval <;> rfl
  · intro hsp
    have hbt : bestMoveToken m = none := by
      unfold bestMoveToken
      rw [hsp]
      simp
    rw [hbt]
    cases s.currentEval <;> rfl
  · intro hsp
    have hbt : bestMoveToken m = none := by
      unfold bestMoveToken
      rw [hsp]
    rw [hbt]
    cases s.currentEval <;> rfl
  · intro tok hsp hne hnone
    have hbt : bestMoveToken m = some tok := by
      unfold bestMoveToken
      rw [hsp]
      show (if tok ≠ [] ∧ tok ≠ "(none)".toList then some tok else none) = some tok
      exact if_pos ⟨hne, hnone⟩
    rw [hbt]
    cases s.currentEval <;> rfl

/-- Witness for C5: a concrete busy session with an accumulated score and a
concrete completion line. -/
theorem bestmove_completes_pending_request_witness :
    (let s : SessionState :=
      { isReady := true, isEngineBusy := true,
        currentEval := some { score := some 21, depth := some 9 },
        hasPromiseResolve := true, hasPromiseReject := true,
        timer := some 6000 }
     let m : JStr := "bestmove e2e4 ponder c7c5".toList
     (onMessage s m).1.isEngineBusy = false ∧
     (onMessage s m).1.hasPromiseResolve = false ∧
     (onMessage s m).1.hasPromiseReject = false ∧
     (onMessage s m).1.currentEval = none ∧
     ∃ r, (onMessage s m).2 = [Action.resolve r] ∧
       r.score = (s.currentEval.getD {}).score ∧
       r.mate = (s.currentEval.getD {}).mate ∧
       r.depth = (s.currentEval.getD {}).depth ∧
       ((splitOnSpace m)[1]? = some "(none)".toList → r.bestMove = none) ∧
       ((splitOnSpace m)[1]? = none → r.bestMove = none) ∧
       (∀ tok, (splitOnSpace m)[1]? = some tok → tok ≠ [] →
         tok ≠ "(none)".toList → r.bestMove = some tok)) :=
  bestmove_completes_pending_request
    { isReady := true, isEngineBusy := true,
      currentEval := some { score := some 21, depth := some 9 },
      hasPromiseResolve := true, hasPromiseReject := true,
      timer := some 6000 }
    "bestmove e2e4 ponder c7c5".toList (by rfl) (by rfl)

/-! ### Timeout policy (claim C4) -/

/-- C4: `evaluateFen` arms its timer at the requested budget plus the fixed
5000 ms margin (the standalone single-call service uses budget plus 100 ms),
and when the timer fires with a request pending the request is rejected with
the evaluation-timeout error, a best-effort `stop` is posted, the busy flag
is cleared and the partial-result accumulator is cleared. -/
theorem evaluate_timeout_policy (s t : SessionState) (fen : JStr)
    (moveTime : Nat) (hpend : t.hasPromiseReject = true)
    (hready : t.isReady = true) :
    (startEvaluation s fen moveTime).1.timer = some (moveTime + 5000) ∧
    evalTimeoutMs moveTime = moveTime + 5000 ∧
    evaluatePositionTimeoutMs moveTime = moveTime + 100 ∧
    (onTimeout t).2 =
      [Action.reject .evaluationTimeout, Action.post "stop".toList] ∧
    (onTimeout t).1.isEngineBusy = false ∧
    (onTimeout t).1.currentEval = none ∧
    (onTimeout t).1.hasPromiseResolve = false ∧
    (onTimeout t).1.hasPromiseReject = false := by
  refine ⟨rfl, rfl, rfl, ?_, rfl, rfl, rfl, rfl⟩
  unfold onTimeout sendCommand
  dsimp only
  rw [if_pos hpend, if_pos hready]
  rfl

/-- Witness for C4 at a concrete ready session with a pending request. -/
theorem evaluate_timeout_policy_witness :
    (let t : SessionState :=
      { isReady := true, isEngineBusy := true,
        currentEval := some { mate := some 4 },
        hasPromiseResolve := true, hasPromiseReject := true,
        timer := some 6000 }
     (startEvaluation initialSession "8/8/8/4k3/8/8/8/K7 w - - 0 1".toList
        1000).1.timer = some (1000 + 5000) ∧
     evalTimeoutMs 1000 = 1000 + 5000 ∧
     evaluatePositionTimeoutMs 1000 = 1000 + 100 ∧
     (onTimeout t).2 =
       [Action.reject .evaluationTimeout, Action.post "stop".toList] ∧
     (onTimeout t).1.isEngineBusy = false ∧
     (onTimeout t).1.currentEval = none ∧
     (onTimeout t).1.hasPromiseResolve = false ∧
     (onTimeout t).1.hasPromiseReject = false) :=
  evaluate_timeout_policy initialSession
    { isReady := true, isEngineBusy := true,
      currentEval := some { mate := some 4 },
      hasPromiseResolve := true, hasPromiseReject := true,
      timer := some 6000 }
    "8/8/8/4k3/8/8/8/K7 w - - 0 1".toList 1000 (by rfl) (by rfl)

/-! ### Bounded waits (claim C8) -/

lemma busyPollAux_spec (busy : Nat → Bool) :
    ∀ fuel k, fuel + k = 202 →
      (∃ j, k ≤ j ∧ j ≤ 201 ∧ busyPollAux busy fuel k = .ok j ∧
        busy j = false ∧ ∀ i, k ≤ i → i < j → busy i = true) ∨
      (busyPollAux busy fuel k = .error .busyTimeout ∧
        ∀ i, k ≤ i → i ≤ 201 → busy i = true) := by
  intro fuel
  induction fuel with
  | zero =>
      intro k hk
      right
      refine ⟨rfl, fun i hki hi => ?_⟩
      omega
  | succ fuel ih =>
      intro k hk
      unfold busyPollAux
      by_cases hb : busy k = true
      · rw [if_pos hb]
        have hk201 : k ≤ 201 := by omega
        by_cases hk200 : k > 200
        · rw [if_pos hk200]
          right
          refine ⟨rfl, fun i hki hi => ?_⟩
          have : i = k := by omega
          rw [this]
          exact hb
        · rw [if_neg hk200]
          rcases ih (k + 1) (by omega) with ⟨j, hj1, hj2, hj3, hj4, hj5⟩ | ⟨h1, h2⟩
          · left
            refine ⟨j, by omega, hj2, hj3, hj4, fun i hki hij => ?_⟩
            rcases Nat.eq_or_lt_of_le hki with heq | hlt
            · rw [heq] at hb
              exact hb
            · exact hj5 i hlt hij
          · right
            refine ⟨h1, fun i hki hi => ?_⟩
            rcases Nat.eq_or_lt_of_le hki with heq | hlt
            · rw [heq] at hb
              exact hb
            · exact h2 i hlt hi
      · rw [if_neg hb]
        left
        exact ⟨k, le_refl k, by omega, rfl, by simpa using hb, fun i h1 h2 => by omega⟩

/-- C8: the wait phases of `evaluateFen` are bounded.  With the
closure-captured readiness flag false the call throws the readiness timeout
(the poll ceiling, 51 sleeps of 100 ms ≈ 5 s); with it true the call either
observes the busy flag clear at some poll `j ≤ 201` (the ceiling, ≈ 20 s of
100 ms sleeps) and proceeds, or throws the busy timeout after the flag stayed
set through every poll up to the ceiling — it never hangs. -/
theorem evaluate_wait_bounded (ready : Bool) (busy : Nat → Bool) :
    (ready = false →
      evaluateFenWaitPhase ready busy = .error .readinessTimeout) ∧
    (ready = true →
      (∃ j, j ≤ 201 ∧ evaluateFenWaitPhase ready busy = .ok j ∧
        busy j = false ∧ ∀ i, i < j → busy i = true) ∨
      (evaluateFenWaitPhase ready busy = .error .busyTimeout ∧
        ∀ i, i ≤ 201 → busy i = true)) := by
  constructor
  · intro h
    subst h
    rfl
  · intro h
    subst h
    have hready : readinessPoll true = .ok 0 := rfl
    have hphase : evaluateFenWaitPhase true busy = busyPoll busy := by
      unfold evaluateFenWaitPhase
      rw [hready]
      rfl
    rw [hphase]
    rcases busyPollAux_spec busy 202 0 rfl with ⟨j, _, hj2, hj3, hj4, hj5⟩ | ⟨h1, h2⟩
    · exact Or.inl ⟨j, hj2, hj3, hj4, fun i hi => hj5 i (Nat.zero_le i) hi⟩
    · exact Or.inr ⟨h1, fun i hi => h2 i (Nat.zero_le i) hi⟩

/-- Witness for C8: a concrete run where the engine frees up at the fourth
poll, and a concrete run where it never frees up within the ceiling. -/
theorem evaluate_wait_bounded_witness :
    ((∃ j, j ≤ 201 ∧
        evaluateFenWaitPhase true (fun i => decide (i < 3)) = .ok j ∧
        decide (j < 3) = false ∧ ∀ i, i < j → decide (i < 3) = true) ∨
      (evaluateFenWaitPhase true (fun i => decide (i < 3)) =
          .error .busyTimeout ∧ ∀ i, i ≤ 201 → decide (i < 3) = true)) ∧
    evaluateFenWaitPhase false (fun _ => true) = .error .readinessTimeout :=
  ⟨(evaluate_wait_bounded true (fun i => decide (i < 3))).2 rfl,
    (evaluate_wait_bounded false (fun _ => true)).1 rfl⟩

/-! ### Sweep loop structure lemmas -/

lemma sweepLoop_mem (pieces : List Placement) (ksq : SquareId) (turn : JStr)
    (oracle : SquareId → EvalOutcome) (flag : Nat → Bool) :
    ∀ (squares : List SquareId) (calls : Nat)
      (acc : List (SquareId × Option EvaluationResult))
      (e : SquareId × Option EvaluationResult),
      e ∈ (sweepLoop pieces ksq turn oracle flag squares calls acc).1 →
      e ∈ acc ∨ (e.1 ∈ squares ∧ skipSquare pieces ksq e.1 = false ∧
        e.2 = storedValue turn oracle e.1) := by
  intro squares
  induction squares with
  | nil =>
      intro calls acc e he
      exact Or.inl he
  | cons sq rest ih =>
      intro calls acc e he
      unfold sweepLoop at he
      by_cases hf : flag calls = true
      · rw [if_pos hf] at he
        exact Or.inl he
      · rw [if_neg hf] at he
        by_cases hskip : skipSquare pieces ksq sq = true
        · rw [if_pos hskip] at he
          rcases ih calls acc e he with h | ⟨h1, h2, h3⟩
          · exact Or.inl h
          · exact Or.inr ⟨List.mem_cons_of_mem _ h1, h2, h3⟩
        · rw [if_neg hskip] at he
          have hskip' : skipSquare pieces ksq sq = false := by simpa using hskip
          cases horc : oracle sq with
          | ok ev =>
              rw [horc] at he
              dsimp only at he
              by_cases hf2 : flag (calls + 1) = true
              · rw [if_pos hf2] at he
                exact Or.inl he
              · rw [if_neg hf2] at he
                rcases ih _ _ e he with h | ⟨h1, h2, h3⟩
                · rcases List.mem_append.1 h with h' | h'
                  · exact Or.inl h'
                  · simp only [List.mem_singleton] at h'
                    subst h'
                    refine Or.inr ⟨List.mem_cons_self sq rest, hskip', ?_⟩
                    simp [storedValue, horc]
                · exact Or.inr ⟨List.mem_cons_of_mem _ h1, h2, h3⟩
          | err =>
              rw [horc] at he
              dsimp only at he
              rcases ih _ _ e he with h | ⟨h1, h2, h3⟩
              · rcases List.mem_append.1 h with h' | h'
                · exact Or.inl h'
                · simp only [List.mem_singleton] at h'
                  subst h'
                  refine Or.inr ⟨List.mem_cons_self sq rest, hskip', ?_⟩
                  simp [storedValue, horc]
              · exact Or.inr ⟨List.mem_cons_of_mem _ h1, h2, h3⟩

lemma sweepLoop_noCancel (pieces : List Placement) (ksq : SquareId)
    (turn : JStr) (oracle : SquareId → EvalOutcome) (flag : Nat → Bool)
    (hflag : ∀ c, flag c = false) :
    ∀ (squares : List SquareId) (calls : Nat)
      (acc : List (SquareId × Option EvaluationResult)),
      sweepLoop pieces ksq turn oracle flag squares calls acc =
        (acc ++ (squares.filter fun sq => !skipSquare pieces ksq sq).map
            (fun sq => (sq, storedValue turn oracle sq)),
          calls + (squares.filter fun sq => !skipSquare pieces ksq sq).length) := by
  intro squares
  induction squares with
  | nil =>
      intro calls acc
      simp [sweepLoop]
  | cons sq rest ih =>
      intro calls acc
      unfold sweepLoop
      rw [if_neg (by rw [hflag calls]; simp)]
      by_cases hskip : skipSquare pieces ksq sq = true
      · rw [if_pos hskip, ih]
        simp [List.filter_cons, hskip]
      · have hskip' : skipSquare pieces ksq sq = false := by simpa using hskip
        rw [if_neg hskip]
        cases horc : oracle sq with
        | ok ev =>
            dsimp only
            rw [if_neg (by rw [hflag (calls + 1)]; simp), ih]
            simp [List.filter_cons, hskip', storedValue, horc, List.append_assoc]
            omega
        | err =>
            dsimp only
            rw [ih]
            simp [List.filter_cons, hskip', storedValue, horc, List.append_assoc]
            omega

lemma sweepLoop_threshold (pieces : List Placement) (ksq : SquareId)
    (turn : JStr) (oracle : SquareId → EvalOutcome) (T : Nat) :
    ∀ (squares : List SquareId) (calls : Nat)
      (acc : List (SquareId × Option EvaluationResult)),
      calls < T →
      (∀ sq, (squares.filter fun s => !skipSquare pieces ksq s)[T - 1 - calls]? =
          some sq → oracle sq ≠ .err) →
      (sweepLoop pieces ksq turn oracle (fun c => decide (T ≤ c))
          squares calls acc).1 =
        acc ++ ((squares.filter fun s => !skipSquare pieces ksq s).take
            (T - 1 - calls)).map (fun sq => (sq, storedValue turn oracle sq)) := by
  intro squares
  induction squares with
  | nil =>
      intro calls acc hlt hnth
      simp [sweepLoop]
  | cons sq rest ih =>
      intro calls acc hlt hnth
      unfold sweepLoop
      rw [if_neg (by simp only [decide_eq_true_eq]; omega)]
      by_cases hskip : skipSquare pieces ksq sq = true
      · have hfilter : (sq :: rest).filter (fun s => !skipSquare pieces ksq s) =
            rest.filter (fun s => !skipSquare pieces ksq s) := by
          simp [List.filter_cons, hskip]
        rw [hfilter] at hnth
        rw [if_pos hskip, ih calls acc hlt hnth, hfilter]
      · have hskip' : skipSquare pieces ksq sq = false := by simpa using hskip
        have hfilter : (sq :: rest).filter (fun s => !skipSquare pieces ksq s) =
            sq :: rest.filter (fun s => !skipSquare pieces ksq s) := by
          simp [List.filter_cons, hskip']
        rw [if_neg hskip]
        rw [hfilter] at hnth
        cases horc : oracle sq with
        | ok ev =>
            dsimp only
            by_cases hT : T ≤ calls + 1
            · rw [if_pos (by simp only [decide_eq_true_eq]; omega)]
              rw [hfilter, show T - 1 - calls = 0 from by omega]
              simp
            · rw [if_neg (by simp only [decide_eq_true_eq]; omega)]
              have hnth' : ∀ s,
                  (rest.filter fun s => !skipSquare pieces ksq s)[T - 1 -
                      (calls + 1)]? = some s → oracle s ≠ .err := by
                intro s hs
                refine hnth s ?_
                rw [show T - 1 - calls = (T - 1 - (calls + 1)) + 1 from by omega]
                simpa using hs
              rw [ih (calls + 1) _ (by omega) hnth', hfilter]
              rw [show T - 1 - calls = (T - 1 - (calls + 1)) + 1 from by omega]
              simp [storedValue, horc, List.append_assoc]
        | err =>
            dsimp only
            by_cases hT : T ≤ calls + 1
            · exfalso
              refine hnth sq ?_ horc
              rw [show T - 1 - calls = 0 from by omega]
              simp
            · have hnth' : ∀ s,
                  (rest.filter fun s => !skipSquare pieces ksq s)[T - 1 -
                      (calls + 1)]? = some s → oracle s ≠ .err := by
                intro s hs
                refine hnth s ?_
                rw [show T - 1 - calls = (T - 1 - (calls + 1)) + 1 from by omega]
                simpa using hs
              rw [ih (calls + 1) _ (by omega) hnth', hfilter]
              rw [show T - 1 - calls = (T - 1 - (calls + 1)) + 1 from by omega]
              simp [storedValue, horc, List.append_assoc]

lemma parseStep_king (st : ParseState) (c : Char)
    (h1 : st.existingKingSquare =
      ((st.pieces.filter fun p => p.ptype = 'k').getLast?).map (fun p => p.square))
    (h2 : st.existingKingColor =
      ((st.pieces.filter fun p => p.ptype = 'k').getLast?).map (fun p => p.color)) :
    (parseStep st c).existingKingSquare =
      (((parseStep st c).pieces.filter fun p => p.ptype = 'k').getLast?).map
        (fun p => p.square) ∧
    (parseStep st c).existingKingColor =
      (((parseStep st c).pieces.filter fun p => p.ptype = 'k').getLast?).map
        (fun p => p.color) := by
  unfold parseStep
  by_cases hs : c = '/'
  · rw [if_pos hs]
    exact ⟨h1, h2⟩
  · rw [if_neg hs]
    by_cases hd : c.isDigit = true
    · rw [if_pos hd]
      exact ⟨h1, h2⟩
    · rw [if_neg hd]
      dsimp only
      by_cases hk : c.toLower = 'k'
      · rw [if_pos hk, if_pos hk]
        rw [List.filter_append]
        have : List.filter (fun p => p.ptype = 'k')
            [(⟨(st.file, st.rank), if c.toUpper = c then .w else .b, c.toLower⟩ :
              Placement)] =
            [⟨(st.file, st.rank), if c.toUpper = c then .w else .b, c.toLower⟩] := by
          simp [List.filter_cons, hk]
        rw [this, List.getLast?_concat]
        exact ⟨rfl, rfl⟩
      · rw [if_neg hk, if_neg hk]
        rw [List.filter_append]
        have : List.filter (fun p => p.ptype = 'k')
            [(⟨(st.file, st.rank), if c.toUpper = c then .w else .b, c.toLower⟩ :
              Placement)] = [] := by
          simp [List.filter_cons, hk]
        rw [this, List.append_nil]
        exact ⟨h1, h2⟩

lemma parseFenPlacement_king (placement : JStr) :
    (parseFenPlacement placement).existingKingSquare =
      (((parseFenPlacement placement).pieces.filter fun p => p.ptype = 'k').getLast?).map
        (fun p => p.square) ∧
    (parseFenPlacement placement).existingKingColor =
      (((parseFenPlacement placement).pieces.filter fun p => p.ptype = 'k').getLast?).map
        (fun p => p.color) := by
  show (placement.foldl parseStep {}).existingKingSquare = _ ∧
    (placement.foldl parseStep {}).existingKingColor = _
  have main : ∀ (chars : JStr) (st : ParseState),
      st.existingKingSquare =
        ((st.pieces.filter fun p => p.ptype = 'k').getLast?).map (fun p => p.square) →
      st.existingKingColor =
        ((st.pieces.filter fun p => p.ptype = 'k').getLast?).map (fun p => p.color) →
      ((chars.foldl parseStep st).existingKingSquare =
        (((chars.foldl parseStep st).pieces.filter
            fun p => p.ptype = 'k').getLast?).map (fun p => p.square) ∧
      (chars.foldl parseStep st).existingKingColor =
        (((chars.foldl parseStep st).pieces.filter
            fun p => p.ptype = 'k').getLast?).map (fun p => p.color)) := by
    intro chars
    induction chars with
    | nil => intro st h1 h2; exact ⟨h1, h2⟩
    | cons c rest ih =>
        intro st h1 h2
        have hstep := parseStep_king st c h1 h2
        exact ih (parseStep st c) hstep.1 hstep.2
  exact main placement {} rfl rfl

lemma adjustPerspective_map (turn : JStr) (evaluation : Option EvaluationResult) :
    adjustPerspective turn evaluation =
      if turn = "b".toList then
        evaluation.map (fun e =>
          { e with score := e.score.map (fun x => -x),
                   mate := e.mate.map (fun x => -x) })
      else evaluation := by
  unfold adjustPerspective
  cases evaluation <;> split <;> rfl

/-! ### Perspective correction (claim C2) -/

/-- C2: every value the sweep stores for a square whose engine call resolved
is the raw result with score and mate each sign-negated (when present) if the
synthesized position's side-to-move field is `b`, and the raw result
unmodified otherwise. -/
theorem sweep_perspective_correction (currentFen : JStr)
    (oracle : SquareId → EvalOutcome) (cancelFlag : Nat → Bool)
    (sq : SquareId) (v raw : Option EvaluationResult)
    (hmem : (sq, v) ∈
      (handleEvaluateKingPositions currentFen oracle cancelFlag).entries)
    (hok : oracle sq = .ok raw) :
    v = if turnToken currentFen = "b".toList
        then raw.map (fun e =>
          { e with score := e.score.map (fun x => -x),
                   mate := e.mate.map (fun x => -x) })
        else raw := by
  unfold handleEvaluateKingPositions at hmem
  dsimp only at hmem
  split at hmem
  · dsimp only at hmem
    rcases sweepLoop_mem _ _ _ _ _ allSquares 0 [] (sq, v) hmem with h | ⟨_, _, h3⟩
    · simp at h
    · dsimp only at h3
      rw [h3]
      unfold storedValue
      rw [hok]
      exact adjustPerspective_map _ raw
  · simp at hmem

/-- Witness for C2: a Black-to-move position, an oracle answering a fixed
score, and a concrete stored entry. -/
theorem sweep_perspective_correction_witness :
    ((((2 : Int), (7 : Int)),
        some { score := some (-10), mate := none, depth := none, bestMove := none }) ∈
      (handleEvaluateKingPositions "K7/8/8/8/8/8/8/8 b - - 0 1".toList
        (fun _ => .ok (some { score := some 10 })) (fun _ => false)).entries) ∧
    (some { score := some (-10), mate := none, depth := none, bestMove := none } :
        Option EvaluationResult) =
      (if turnToken "K7/8/8/8/8/8/8/8 b - - 0 1".toList = "b".toList
       then (some { score := some 10 } : Option EvaluationResult).map (fun e =>
         { e with score := e.score.map (fun x => -x),
                  mate := e.mate.map (fun x => -x) })
       else some { score := some 10 }) := by
  refine ⟨by decide, ?_⟩
  exact sweep_perspective_correction "K7/8/8/8/8/8/8/8 b - - 0 1".toList
    (fun _ => .ok (some { score := some 10 })) (fun _ => false)
    ((2 : Int), (7 : Int))
    (some { score := some (-10), mate := none, depth := none, bestMove := none })
    (some { score := some 10 }) (by decide) rfl

/-! ### Skip guards (claim C3) -/

/-- C3: for an input whose parsed placement holds exactly one king `p`, no
key of the sweep's output mapping is an occupied square, the king's own
square, or a square within Chebyshev distance 1 of the king's square. -/
theorem sweep_never_stores_occupied_or_adjacent (currentFen : JStr)
    (oracle : SquareId → EvalOutcome) (cancelFlag : Nat → Bool) (p : Placement)
    (hone : (parseFenPlacement (placementField currentFen)).pieces.filter
        (fun q => q.ptype = 'k') = [p]) :
    ∀ sq v, (sq, v) ∈
        (handleEvaluateKingPositions currentFen oracle cancelFlag).entries →
      occupied (parseFenPlacement (placementField currentFen)).pieces sq = false ∧
      sq ≠ p.square ∧ chebyshevAdjacent sq p.square = false := by
  have hks : (parseFenPlacement (placementField currentFen)).existingKingSquare =
      some p.square := by
    rw [(parseFenPlacement_king _).1, hone]
    rfl
  have hkc : (parseFenPlacement (placementField currentFen)).existingKingColor =
      some p.color := by
    rw [(parseFenPlacement_king _).2, hone]
    rfl
  intro sq v hmem
  unfold handleEvaluateKingPositions at hmem
  dsimp only at hmem
  rw [hks, hkc] at hmem
  dsimp only at hmem
  rcases sweepLoop_mem _ _ _ _ _ allSquares 0 [] (sq, v) hmem with h | ⟨_, h2, _⟩
  · simp at h
  · dsimp only at h2
    unfold skipSquare at h2
    rw [Bool.or_eq_false_iff, Bool.or_eq_false_iff] at h2
    refine ⟨h2.1.1, ?_, h2.2⟩
    have := h2.1.2
    simpa using this

/-- Witness for C3: a concrete one-king position and a concrete entry of its
sweep output. -/
theorem sweep_never_stores_occupied_or_adjacent_witness :
    ((parseFenPlacement
        (placementField "K7/8/8/8/8/8/8/8 w - - 0 1".toList)).pieces.filter
      (fun q => q.ptype = 'k') =
        [⟨((0 : Int), (7 : Int)), PColor.w, 'k'⟩]) ∧
    (occupied (parseFenPlacement
        (placementField "K7/8/8/8/8/8/8/8 w - - 0 1".toList)).pieces
      ((4 : Int), (4 : Int)) = false ∧
     ((4 : Int), (4 : Int)) ≠
        (⟨((0 : Int), (7 : Int)), PColor.w, 'k'⟩ : Placement).square ∧
     chebyshevAdjacent ((4 : Int), (4 : Int))
        (⟨((0 : Int), (7 : Int)), PColor.w, 'k'⟩ : Placement).square = false) :=
  ⟨by decide,
    sweep_never_stores_occupied_or_adjacent "K7/8/8/8/8/8/8/8 w - - 0 1".toList
      (fun _ => .ok (some { score := some 10 })) (fun _ => false)
      ⟨((0 : Int), (7 : Int)), PColor.w, 'k'⟩ (by decide)
      ((4 : Int), (4 : Int))
      (some { score := some 10, mate := none, depth := none, bestMove := none })
      (by decide)⟩

/-! ### Per-square failure isolation (claim C6) -/

lemma handleEvaluate_noCancel_spec (currentFen : JStr)
    (oracle : SquareId → EvalOutcome) (ksq : SquareId) (kc : PColor)
    (hks : (parseFenPlacement (placementField currentFen)).existingKingSquare =
      some ksq)
    (hkc : (parseFenPlacement (placementField currentFen)).existingKingColor =
      some kc) :
    ((handleEvaluateKingPositions currentFen oracle (fun _ => false)).entries).map
        Prod.fst = evaluableSquares currentFen ∧
    ∀ sq, sq ∈ evaluableSquares currentFen → oracle sq = .err →
      (sq, (none : Option EvaluationResult)) ∈
        (handleEvaluateKingPositions currentFen oracle (fun _ => false)).entries := by
  unfold handleEvaluateKingPositions evaluableSquares
  dsimp only
  rw [hks, hkc]
  dsimp only
  rw [sweepLoop_noCancel _ _ _ _ _ (fun _ => rfl) allSquares 0 []]
  constructor
  · have hcomp : (Prod.fst ∘ fun sq : SquareId =>
        (sq, storedValue (turnToken currentFen) oracle sq)) = fun sq => sq := rfl
    dsimp only
    rw [List.nil_append, List.map_map, hcomp, List.map_id']
  · intro sq hsq herr
    dsimp only
    rw [List.nil_append, List.mem_map]
    exact ⟨sq, hsq, by simp [storedValue, herr]⟩

/-- C6: with no cancellation, the sweep's output keys are exactly the
evaluable squares, whatever the oracle's failures, and every evaluable square
whose engine call rejects is recorded as a `null` entry — one failure never
aborts the sweep. -/
theorem sweep_isolates_per_square_failures (currentFen : JStr)
    (oracle : SquareId → EvalOutcome) (ksq : SquareId) (kc : PColor)
    (hks : (parseFenPlacement (placementField currentFen)).existingKingSquare =
      some ksq)
    (hkc : (parseFenPlacement (placementField currentFen)).existingKingColor =
      some kc) :
    ((handleEvaluateKingPositions currentFen oracle (fun _ => false)).entries).map
        Prod.fst = evaluableSquares currentFen ∧
    ∀ sq, sq ∈ evaluableSquares currentFen → oracle sq = .err →
      (sq, (none : Option EvaluationResult)) ∈
        (handleEvaluateKingPositions currentFen oracle (fun _ => false)).entries :=
  handleEvaluate_noCancel_spec currentFen oracle ksq kc hks hkc

/-- Witness for C6: a concrete position with an oracle failing on one square;
the key list is complete and the failing square holds `null`. -/
theorem sweep_isolates_per_square_failures_witness :
    (((handleEvaluateKingPositions "K7/8/8/8/8/8/8/8 w - - 0 1".toList
        (fun sq => if sq = ((4, 7) : SquareId) then .err
                   else .ok (some { score := some 10 }))
        (fun _ => false)).entries).map Prod.fst =
      evaluableSquares "K7/8/8/8/8/8/8/8 w - - 0 1".toList ∧
    ∀ sq, sq ∈ evaluableSquares "K7/8/8/8/8/8/8/8 w - - 0 1".toList →
      (if sq = ((4, 7) : SquareId) then EvalOutcome.err
       else .ok (some { score := some 10 })) = .err →
      (sq, (none : Option EvaluationResult)) ∈
        (handleEvaluateKingPositions "K7/8/8/8/8/8/8/8 w - - 0 1".toList
          (fun sq => if sq = ((4, 7) : SquareId) then .err
                     else .ok (some { score := some 10 }))
          (fun _ => false)).entries) :=
  sweep_isolates_per_square_failures "K7/8/8/8/8/8/8/8 w - - 0 1".toList
    (fun sq => if sq = ((4, 7) : SquareId) then .err
               else .ok (some { score := some 10 }))
    ((0 : Int), (7 : Int)) PColor.w (by decide) (by decide)

/-! ### King-count validation (claim C7) -/

/-- A position holding two kings: black king a8, white king a1. -/
def twoKingsFen : JStr := "k7/8/8/8/8/8/8/K7 w - - 0 1".toList

/-- C7 evidence: the sweep does not validate "exactly one king".  On the
two-king input it takes no early return and makes 59 engine calls, using the
most recently parsed king (the white king at a1) as the existing king; only
the zero-king case takes the early return with no engine call. -/
theorem sweep_two_kings_not_rejected :
    kingCount twoKingsFen = 2 ∧
    (handleEvaluateKingPositions twoKingsFen (fun _ => .ok none)
        (fun _ => false)).kingMissingError = false ∧
    (handleEvaluateKingPositions twoKingsFen (fun _ => .ok none)
        (fun _ => false)).evalCalls = 59 ∧
    (handleEvaluateKingPositions "8/8/8/8/8/8/8/8 w - - 0 1".toList
        (fun _ => .ok none) (fun _ => false)).kingMissingError = true ∧
    (handleEvaluateKingPositions "8/8/8/8/8/8/8/8 w - - 0 1".toList
        (fun _ => .ok none) (fun _ => false)).evalCalls = 0 := by
  refine ⟨by decide, by decide, by decide, by decide, by decide⟩

/-! ### Cancellation (claims C9 and C10) -/

lemma allSquares_nodup : allSquares.Nodup := by decide

/-- Position for the cancellation scenarios: a lone white king at a8.  The
evaluable squares start, in loop order, with c8 = (2,7), d8 = (3,7),
e8 = (4,7). -/
def cancelDemoFen : JStr := "K7/8/8/8/8/8/8/8 w - - 0 1".toList

/-- Oracle whose call for e8 — the third evaluable square — rejects. -/
def cancelDemoOracle : SquareId → EvalOutcome := fun sq =>
  if sq = ((4, 7) : SquareId) then .err else .ok (some { score := some 10 })

/-- C9 counterexample: the cancellation flag becomes set while the third
engine call is in flight — that is, after exactly 2 squares have been
processed (the flag reads false up to 2 completed calls and true from 3)—
and that third call rejects.  The catch path stores `null` with no flag
re-check, so the output mapping holds 3 entries where the claim demands
exactly 2. -/
theorem sweep_cancel_count_counterexample :
    ((handleEvaluateKingPositions cancelDemoFen cancelDemoOracle
        (fun calls => decide (3 ≤ calls))).entries).length = 3 ∧
    ¬ ((handleEvaluateKingPositions cancelDemoFen cancelDemoOracle
        (fun calls => decide (3 ≤ calls))).entries).length = 2 :=
  ⟨by decide, by decide⟩

lemma handleEvaluate_threshold_take (currentFen : JStr)
    (oracle : SquareId → EvalOutcome) (N : Nat) (ksq : SquareId) (kc : PColor)
    (hks : (parseFenPlacement (placementField currentFen)).existingKingSquare =
      some ksq)
    (hkc : (parseFenPlacement (placementField currentFen)).existingKingColor =
      some kc)
    (hN : N ≤ (evaluableSquares currentFen).length)
    (hok : ∀ sq, (evaluableSquares currentFen)[N]? = some sq →
      oracle sq ≠ .err) :
    (handleEvaluateKingPositions currentFen oracle
        (fun calls => decide (N + 1 ≤ calls))).entries =
      ((handleEvaluateKingPositions currentFen oracle
        (fun _ => false)).entries).take N ∧
    ((handleEvaluateKingPositions currentFen oracle
        (fun calls => decide (N + 1 ≤ calls))).entries).length = N := by
  unfold evaluableSquares at hN hok
  dsimp only at hN hok
  rw [hks] at hN hok
  dsimp only at hN hok
  unfold handleEvaluateKingPositions
  dsimp only
  rw [hks, hkc]
  dsimp only
  rw [sweepLoop_threshold _ _ _ _ (N + 1) allSquares 0 [] (by omega)
    (by simpa using hok)]
  rw [sweepLoop_noCancel _ _ _ _ _ (fun _ => rfl) allSquares 0 []]
  dsimp only
  rw [List.nil_append, List.nil_append,
    show N + 1 - 1 - 0 = N from by omega]
  refine ⟨List.map_take _ _ _, ?_⟩
  rw [List.length_map, List.length_take]
  omega

/-- C9 amended: the flag is checked before each square's call, aborting
leaves the computed entries intact, and cancelling after exactly N squares
have been processed (the flag first reads true at N + 1 completed calls)
yields exactly the first N entries of the uncancelled run — provided the call
in flight at cancellation, when there is one, resolves rather than rejects. -/
theorem sweep_cancel_after_n (currentFen : JStr)
    (oracle : SquareId → EvalOutcome) (N : Nat) (ksq : SquareId) (kc : PColor)
    (hks : (parseFenPlacement (placementField currentFen)).existingKingSquare =
      some ksq)
    (hkc : (parseFenPlacement (placementField currentFen)).existingKingColor =
      some kc)
    (hN : N ≤ (evaluableSquares currentFen).length)
    (hok : ∀ sq, (evaluableSquares currentFen)[N]? = some sq →
      oracle sq ≠ .err) :
    (handleEvaluateKingPositions currentFen oracle
        (fun calls => decide (N + 1 ≤ calls))).entries =
      ((handleEvaluateKingPositions currentFen oracle
        (fun _ => false)).entries).take N ∧
    ((handleEvaluateKingPositions currentFen oracle
        (fun calls => decide (N + 1 ≤ calls))).entries).length = N :=
  handleEvaluate_threshold_take currentFen oracle N ksq kc hks hkc hN hok

/-- Witness for the amended C9: cancelling after exactly 1 processed square
(flag true from 2 completed calls) in the demo position, the second call —
in flight at cancellation — resolving, yields exactly the first entry. -/
theorem sweep_cancel_after_n_witness :
    (handleEvaluateKingPositions cancelDemoFen cancelDemoOracle
        (fun calls => decide (1 + 1 ≤ calls))).entries =
      ((handleEvaluateKingPositions cancelDemoFen cancelDemoOracle
        (fun _ => false)).entries).take 1 ∧
    ((handleEvaluateKingPositions cancelDemoFen cancelDemoOracle
        (fun calls => decide (1 + 1 ≤ calls))).entries).length = 1 :=
  sweep_cancel_after_n cancelDemoFen cancelDemoOracle 1
    ((0 : Int), (7 : Int)) PColor.w (by decide) (by decide) (by decide)
    (by
      intro s hs
      rw [show (evaluableSquares cancelDemoFen)[1]? =
        some ((3, 7) : SquareId) from by decide] at hs
      injection hs with h
      subst h
      decide)

/-- C10: when the flag is set while the call for `sq` — the square at index N
among the evaluable squares, so after exactly N squares were processed — is
in flight and that call resolves, the re-check after the await discards the
result: `sq` is no key of the output, which is exactly the first N entries of
the uncancelled run. -/
theorem sweep_discards_in_flight_result (currentFen : JStr)
    (oracle : SquareId → EvalOutcome) (N : Nat) (sq : SquareId)
    (raw : Option EvaluationResult) (ksq : SquareId) (kc : PColor)
    (hks : (parseFenPlacement (placementField currentFen)).existingKingSquare =
      some ksq)
    (hkc : (parseFenPlacement (placementField currentFen)).existingKingColor =
      some kc)
    (hsq : (evaluableSquares currentFen)[N]? = some sq)
    (hok : oracle sq = .ok raw) :
    sq ∉ ((handleEvaluateKingPositions currentFen oracle
        (fun calls => decide (N + 1 ≤ calls))).entries).map Prod.fst ∧
    (handleEvaluateKingPositions currentFen oracle
        (fun calls => decide (N + 1 ≤ calls))).entries =
      ((handleEvaluateKingPositions currentFen oracle
        (fun _ => false)).entries).take N := by
  have hN : N ≤ (evaluableSquares currentFen).length := by
    obtain ⟨h, _⟩ := List.getElem?_eq_some.mp hsq
    omega
  have hok' : ∀ s, (evaluableSquares currentFen)[N]? = some s →
      oracle s ≠ .err := by
    intro s hs
    rw [hsq] at hs
    injection hs with h
    subst h
    rw [hok]
    intro hcontra
    cases hcontra
  have hmain := handleEvaluate_threshold_take currentFen oracle N ksq kc hks hkc hN hok'
  refine ⟨?_, hmain.1⟩
  rw [hmain.1]
  intro hmem
  -- keys of the uncancelled run are the evaluable squares
  have hkeys := (handleEvaluate_noCancel_spec currentFen oracle ksq kc
    hks hkc).1
  have hmem' : sq ∈ ((evaluableSquares currentFen).take N) := by
    have htake : ((handleEvaluateKingPositions currentFen oracle
        (fun _ => false)).entries.take N).map Prod.fst =
        ((handleEvaluateKingPositions currentFen oracle
          (fun _ => false)).entries.map Prod.fst).take N :=
      List.map_take _ _ _
    rw [htake, hkeys] at hmem
    exact hmem
  have hdrop : sq ∈ (evaluableSquares currentFen).drop N := by
    have h0 : ((evaluableSquares currentFen).drop N)[0]? = some sq := by
      rw [List.getElem?_drop]
      simpa using hsq
    exact List.getElem?_mem h0
  have hnodup : (evaluableSquares currentFen).Nodup := by
    unfold evaluableSquares
    dsimp only
    rw [hks]
    exact List.Nodup.filter _ allSquares_nodup
  exact (List.disjoint_take_drop hnodup (le_refl N)) hmem' hdrop

/-- Witness for C10: in the demo position with cancellation while the second
call (square d8) is in flight, d8 does not appear among the output keys. -/
theorem sweep_discards_in_flight_result_witness :
    ((3, 7) : SquareId) ∉
      ((handleEvaluateKingPositions cancelDemoFen cancelDemoOracle
        (fun calls => decide (1 + 1 ≤ calls))).entries).map Prod.fst ∧
    (handleEvaluateKingPositions cancelDemoFen cancelDemoOracle
        (fun calls => decide (1 + 1 ≤ calls))).entries =
      ((handleEvaluateKingPositions cancelDemoFen cancelDemoOracle
        (fun _ => false)).entries).take 1 :=
  sweep_discards_in_flight_result cancelDemoFen cancelDemoOracle 1
    ((3, 7) : SquareId) (some { score := some 10 })
    ((0 : Int), (7 : Int)) PColor.w (by decide) (by decide) (by decide)
    (by decide)

end ChessEndgames
